import Mathlib

/-!
Verification of the go-shutil library (CopyFile, CopyStat, Copy2, CopyTree,
RmTree from file.go, and the error types from errors.go) against its
natural-language specification.

The filesystem is shallowly embedded as a finite map from path strings to
inode identifiers and from inode identifiers to nodes (regular file with
byte content, directory, named pipe, or symbolic link).  Inode identifiers
model OS-level file identity: os.SameFile compares the resolved identifiers,
so hard links (two paths mapped to the same identifier) are captured.
Paths are atomic string keys joined with a slash; directory membership is
derived from the path strings themselves.

Go's os.Stat follows symbolic links (the returned FileInfo describes the
link's target, and its Mode never carries ModeSymlink), while os.Lstat does
not; both are modelled below, with symlink chains resolved under a fuel
bound standing for the OS link-resolution limit (exceeding it is a stat
error distinct from a not-exist error, as ELOOP is for os.IsNotExist).

io.Copy can return a byte count smaller than the source's stat-reported
size with a nil error (the source was truncated concurrently, or more
generally the reader reached EOF early).  That environmental nondeterminism
is modelled by a CopyEnv oracle limiting how many bytes a read yields.
-/

deriving instance DecidableEq for Except

namespace Shutil

abbrev Path := String

/-- A filesystem node: regular file with content and mode bits, directory
with mode bits, named pipe, or symbolic link holding its target path. -/
inductive Node where
  | regular (content : List Nat) (mode : Nat)
  | directory (mode : Nat)
  | pipe
  | symlink (target : Path)
  deriving DecidableEq, Repr

def Node.isPipe : Node → Bool
  | .pipe => true
  | _ => false

def Node.isDir : Node → Bool
  | .directory _ => true
  | _ => false

def Node.isSymlink : Node → Bool
  | .symlink _ => true
  | _ => false

/-- FileInfo.Size(): content length for a regular file (only used there). -/
def Node.size : Node → Nat
  | .regular c _ => c.length
  | _ => 0

/-- FileInfo.Mode() permission bits as used by MkdirAll. -/
def Node.mode : Node → Nat
  | .regular _ m => m
  | .directory m => m
  | _ => 0

/-- The filesystem state: path table, inode table, and a fresh-id counter.
Two paths sharing one inode identifier are hard links to the same file. -/
structure FS where
  entries : List (Path × Nat)
  inodes : List (Nat × Node)
  nextId : Nat
  deriving DecidableEq, Repr

/-- Errors surfaced by the operating system (passthrough errors in §7). -/
inductive OsErr where
  | notExist
  | tooManyLinks
  | isDirectory
  | notDirectory
  | notRegular
  | invalidArgument
  | alreadyExists
  | dirNotEmpty
  | outOfFuel
  deriving DecidableEq, Repr

/-- The library's error taxonomy: the three error types of errors.go plus
passthrough OS errors. -/
inductive Err where
  | SameFileError (src dst : Path)
  | SpecialFileError (file : Path)
  | CopyNotCompleteError (src dst : Path)
  | osError (e : OsErr)
  deriving DecidableEq, Repr

def FS.lookupId (fs : FS) (p : Path) : Option Nat :=
  (fs.entries.find? fun e => e.1 == p).map fun e => e.2

def FS.node (fs : FS) (i : Nat) : Option Node :=
  (fs.inodes.find? fun e => e.1 == i).map fun e => e.2

/-- os.Lstat: the node stored at the path itself, without following a final
symbolic link. -/
def FS.lstat (fs : FS) (p : Path) : Option (Nat × Node) :=
  match fs.lookupId p with
  | none => none
  | some i => (fs.node i).map fun n => (i, n)

/-- The OS bound on symbolic-link chain resolution. -/
def maxLinkResolve : Nat := 40

/-- Resolve a path, following symbolic links, with fuel bounding the chain
length.  Running out of fuel is the ELOOP-style error, which os.IsNotExist
does not match. -/
def FS.resolve (fs : FS) : Nat → Path → Except OsErr (Nat × Node)
  | 0, _ => .error .tooManyLinks
  | fuel + 1, p =>
    match fs.lstat p with
    | none => .error .notExist
    | some (_, .symlink t) => fs.resolve fuel t
    | some (i, n) => .ok (i, n)

/-- os.Stat: follows symbolic links; the result never describes a symlink. -/
def FS.stat (fs : FS) (p : Path) : Except OsErr (Nat × Node) :=
  fs.resolve maxLinkResolve p

/-- Replace the node stored under an inode identifier. -/
def FS.setNode (fs : FS) (i : Nat) (n : Node) : FS :=
  { fs with inodes := fs.inodes.map fun e => if e.1 == i then (i, n) else e }

/-- Add a fresh entry (new inode) at a path. -/
def FS.addNew (fs : FS) (p : Path) (n : Node) : FS :=
  { entries := (p, fs.nextId) :: fs.entries
    inodes := (fs.nextId, n) :: fs.inodes
    nextId := fs.nextId + 1 }

/-- Drop the path table entry for a path (the inode table is untouched, so
other hard links to the same inode keep working, as with unlink). -/
def FS.removePath (fs : FS) (p : Path) : FS :=
  { fs with entries := fs.entries.filter fun e => !(e.1 == p) }

/-- os.Open for reading: follows symbolic links; succeeds on any resolvable
entry (opening a directory succeeds on POSIX; reading it fails later). -/
def FS.openFile (fs : FS) (p : Path) : Except OsErr (Nat × Node) :=
  fs.stat p

/-- os.Create: follows symbolic links on the destination; truncates an
existing regular file in place (same inode) or creates a fresh one; fails
on a directory.  0o666 = 438 is the default creation mode. -/
def FS.createFile (fs : FS) : Nat → Path → Except OsErr (Nat × FS)
  | 0, _ => .error .tooManyLinks
  | fuel + 1, p =>
    match fs.lstat p with
    | none => .ok (fs.nextId, fs.addNew p (.regular [] 438))
    | some (i, .regular _ m) => .ok (i, fs.setNode i (.regular [] m))
    | some (_, .directory _) => .error .isDirectory
    | some (_, .pipe) => .error .notRegular
    | some (_, .symlink t) => fs.createFile fuel t

/-- Write content into an (open, regular) inode, keeping its mode. -/
def FS.writeContent (fs : FS) (i : Nat) (bytes : List Nat) : FS :=
  match fs.node i with
  | some (.regular _ m) => fs.setNode i (.regular bytes m)
  | _ => fs

/-- os.Readlink: the target of a symbolic link, read without following. -/
def FS.readlink (fs : FS) (p : Path) : Except OsErr Path :=
  match fs.lstat p with
  | some (_, .symlink t) => .ok t
  | some _ => .error .invalidArgument
  | none => .error .notExist

/-- os.Symlink target p: creates a new symbolic link at p; fails if any
entry already occupies p. -/
def FS.symlinkNew (fs : FS) (target p : Path) : Except OsErr FS :=
  match fs.lstat p with
  | some _ => .error .alreadyExists
  | none => .ok (fs.addNew p (.symlink target))

/-- os.MkdirAll: success if the path already resolves to a directory, error
if it resolves to anything else, creation otherwise (missing intermediate
parents are not tracked separately in this path-keyed model). -/
def FS.mkdirAll (fs : FS) (p : Path) (mode : Nat) : Option OsErr × FS :=
  match fs.stat p with
  | .ok (_, .directory _) => (none, fs)
  | .ok _ => (some .notDirectory, fs)
  | .error .notExist => (none, fs.addNew p (.directory mode))
  | .error e => (some e, fs)

/-- Boolean prefix test on character lists. -/
def listIsPrefixOf : List Char → List Char → Bool
  | [], _ => true
  | _ :: _, [] => false
  | a :: as, b :: bs => decide (a = b) && listIsPrefixOf as bs

/-- os.Remove: single non-recursive removal — removes a file or an empty
directory, and fails with the OS directory-not-empty error otherwise. -/
def FS.hasChildren (fs : FS) (p : Path) : Bool :=
  fs.entries.any fun e => listIsPrefixOf (p.data ++ ['/']) e.1.data

def osRemove (p : Path) (fs : FS) : Option OsErr × FS :=
  match fs.lstat p with
  | none => (some .notExist, fs)
  | some (_, .directory _) =>
    if fs.hasChildren p then (some .dirNotEmpty, fs)
    else (none, fs.removePath p)
  | some _ => (none, fs.removePath p)

/-- filepath.Join for a clean directory path and a separator-free entry
name, as produced by directory listings. -/
def filepathJoin (a b : Path) : Path :=
  a ++ "/" ++ b

/-- Split a character list at every slash. -/
def splitSlash : List Char → List (List Char)
  | [] => [[]]
  | c :: cs =>
    let r := splitSlash cs
    if c = '/' then [] :: r
    else
      match r with
      | [] => [[c]]
      | h :: t => (c :: h) :: t

/-- filepath.Base: the last slash-separated element, after trailing slashes
are removed; "." for the empty path and "/" for an all-slash path. -/
def filepathBase (p : Path) : Path :=
  if p.data = [] then "."
  else
    match ((splitSlash p.data).filter fun s => s ≠ []).getLast? with
    | none => "/"
    | some b => String.mk b

/-- Match a leading prefix off a character list, returning the remainder. -/
def dropPrefixList : List Char → List Char → Option (List Char)
  | [], l => some l
  | _ :: _, [] => none
  | a :: as, b :: bs => if a = b then dropPrefixList as bs else none

/-- The entry name under directory p that path q names, if q is an
immediate child of p (one further nonempty separator-free component). -/
def stripChild (p q : Path) : Option String :=
  match dropPrefixList (p.data ++ ['/']) q.data with
  | none => none
  | some r => if r = [] ∨ '/' ∈ r then none else some (String.mk r)

/-- Byte-wise lexicographic order on names, for the sorted directory
listing ioutil.ReadDir returns. -/
def charListLe : List Char → List Char → Bool
  | [], _ => true
  | _ :: _, [] => false
  | a :: as, b :: bs => if a = b then charListLe as bs else decide (a.toNat < b.toNat)

def strLe (a b : String) : Bool :=
  charListLe a.data b.data

def insertSorted (x : String) : List String → List String
  | [] => [x]
  | y :: ys => if strLe x y then x :: y :: ys else y :: insertSorted x ys

def sortNames (l : List String) : List String :=
  l.foldr insertSorted []

/-- os.FileInfo as seen in a directory listing: the entry name and the
node metadata. -/
structure FileInfo where
  name : String
  node : Node
  deriving DecidableEq, Repr

def childNamesOf (fs : FS) (p : Path) : List String :=
  (fs.entries.filterMap fun e => stripChild p e.1).dedup

/-- ioutil.ReadDir: fails unless the path resolves to a directory; returns
the directory's entries sorted by name. -/
def FS.readDir (fs : FS) (p : Path) : Except OsErr (List FileInfo) :=
  match fs.stat p with
  | .error e => .error e
  | .ok (_, .directory _) =>
    .ok ((sortNames (childNamesOf fs p)).filterMap fun n =>
      (fs.lstat (filepathJoin p n)).map fun q => ⟨n, q.2⟩)
  | .ok _ => .error .notDirectory

/-- The I/O nondeterminism oracle: readLimit = some k means a reader
reaches end of stream after k bytes with no error (e.g. the source file
was truncated after it was statted). -/
structure CopyEnv where
  readLimit : Option Nat
  deriving DecidableEq, Repr

def transferBytes (env : CopyEnv) (c : List Nat) : List Nat :=
  match env.readLimit with
  | none => c
  | some k => c.take k

/-- io.Copy reading from an opened node: yields the transferred bytes, or
an OS read error for a non-regular source (EISDIR and the like). -/
def ioCopyFrom (env : CopyEnv) (srcNode : Node) : Except OsErr (List Nat) :=
  match srcNode with
  | .regular c _ => .ok (transferBytes env c)
  | _ => .error .notRegular

/-- CopyOptions from file.go. -/
structure CopyOptions where
  FollowSymlinks : Bool
  deriving Repr

/-- The followSymlinks resolution at the top of CopyFile and Copy2:
defaults to true when options are nil. -/
def followSymlinksOf (options : Option CopyOptions) : Bool :=
  match options with
  | none => true
  | some o => o.FollowSymlinks

/-- The body of CopyFile after the src/dst checks: the symlink-recreation
branch when followSymlinks is unset and the statted source mode carries
the symlink bit, otherwise open src, create dst, stream the bytes and
check the transferred count against the source's reported size. -/
def copyFileData (env : CopyEnv) (src dst : Path) (followSymlinks : Bool)
    (srcNode : Node) (fs : FS) : (String × Option Err) × FS :=
  if !followSymlinks && srcNode.isSymlink then
    match fs.readlink src with
    | .error e => (("", some (.osError e)), fs)
    | .ok srcOrigin =>
      match fs.symlinkNew srcOrigin dst with
      | .error e => (("", some (.osError e)), fs)
      | .ok fs' => ((dst, none), fs')
  else
    match fs.openFile src with
    | .error e => (("", some (.osError e)), fs)
    | .ok (_, srcOpened) =>
      match fs.createFile maxLinkResolve dst with
      | .error e => (("", some (.osError e)), fs)
      | .ok (dstId, fs1) =>
        match ioCopyFrom env srcOpened with
        | .error e => (("", some (.osError e)), fs1)
        | .ok bytes =>
          let fs2 := fs1.writeContent dstId bytes
          if bytes.length == srcNode.size then ((dst, none), fs2)
          else (("", some (.CopyNotCompleteError src dst)), fs2)

/-- CopyFile from file.go: stat src, reject a named-pipe src, stat dst
(propagating stat errors other than not-exist), reject a same-file pair
and a named-pipe dst, then copy the data. -/
def CopyFile (env : CopyEnv) (src dst : Path) (options : Option CopyOptions)
    (fs : FS) : (String × Option Err) × FS :=
  let followSymlinks := followSymlinksOf options
  match fs.stat src with
  | .error e => (("", some (.osError e)), fs)
  | .ok (srcId, srcNode) =>
    if srcNode.isPipe then (("", some (.SpecialFileError src)), fs)
    else
      match fs.stat dst with
      | .ok (dstId, dstNode) =>
        if srcId == dstId then (("", some (.SameFileError src dst)), fs)
        else if dstNode.isPipe then (("", some (.SpecialFileError dst)), fs)
        else copyFileData env src dst followSymlinks srcNode fs
      | .error .notExist => copyFileData env src dst followSymlinks srcNode fs
      | .error e => (("", some (.osError e)), fs)

/-- CopyStat from file.go: a stub that always succeeds (TODO in source). -/
def CopyStat (src dst : Path) (options : Option CopyOptions) : Option Err :=
  none

/-- Copy2 from file.go: redirect dst into dst/basename(src) when dst is an
existing directory, copy the data, copy the stat info, return the final
destination. -/
def Copy2 (env : CopyEnv) (src dst : Path) (options : Option CopyOptions)
    (fs : FS) : (String × Option Err) × FS :=
  let followSymlinks := followSymlinksOf options
  let dst1 :=
    match fs.stat dst with
    | .ok (_, .directory _) => filepathJoin dst (filepathBase src)
    | _ => dst
  match CopyFile env src dst1 (some ⟨followSymlinks⟩) fs with
  | ((_, some e), fs') => (("", some e), fs')
  | ((_, none), fs') =>
    match CopyStat src dst1 (some ⟨followSymlinks⟩) with
    | some e => (("", some e), fs')
    | none => ((dst1, none), fs')

/-- The type of a pluggable per-file copy strategy (CopyFunction). -/
abbrev CopyFn := Path → Path → Option CopyOptions → FS → (String × Option Err) × FS

/-- Observable callback/call events of a CopyTree traversal: each Ignore
callback invocation, each copy-function invocation, and each recursive
CopyTree invocation, with the paths they were given. -/
inductive Event where
  | ignoreCall (src : Path) (subs : List FileInfo)
  | copyCall (src dst : Path)
  | treeCall (src dst : Path)
  deriving DecidableEq, Repr

/-- CopyTreeOptions from file.go. -/
structure CopyTreeOptions where
  Symlinks : Bool
  Ignore : Option (Path → List FileInfo → List String)
  CopyFunction : Option CopyFn
  IgnoreDanglingSymlinks : Bool

/-- The type of the recursive tree-copy call. -/
abbrev TreeFn := Path → Path → Option CopyTreeOptions → FS → (String × Option Err) × FS × List Event

/-- The ignore-set computation in CopyTree: the Ignore callback applied to
the visited directory and its listing when present, the empty list
otherwise. -/
def ignoredNamesOf (options : Option CopyTreeOptions) (src : Path)
    (subs : List FileInfo) : List String :=
  match options with
  | some o =>
    match o.Ignore with
    | some f => f src subs
    | none => []
  | none => []

/-- The trace of the ignore-set computation: one callback invocation when
a callback is present, none otherwise. -/
def ignoreTrace (options : Option CopyTreeOptions) (src : Path)
    (subs : List FileInfo) : List Event :=
  match options with
  | some o =>
    match o.Ignore with
    | some _ => [Event.ignoreCall src subs]
    | none => []
  | none => []

/-- The copy-function resolution at the top of CopyTree: Copy2 unless
options supply one. -/
def copyFunctionOf (env : CopyEnv) (options : Option CopyTreeOptions) : CopyFn :=
  match options with
  | some o =>
    match o.CopyFunction with
    | some f => f
    | none => Copy2 env
  | none => Copy2 env

/-- The per-entry loop of CopyTree: skip ignored names, lstat the entry,
do nothing for a symbolic link (TODO in source), recurse for a directory
(with the parent's options), and otherwise invoke the copy function with
nil per-file options; stop at the first error. -/
def copyTreeSubs (rec : TreeFn) (copyFn : CopyFn) (ignoredNames : List String)
    (options : Option CopyTreeOptions) (src dst : Path) :
    List FileInfo → FS → Option Err × FS × List Event
  | [], fs => (none, fs, [])
  | sub :: rest, fs =>
    if sub.name ∈ ignoredNames then
      copyTreeSubs rec copyFn ignoredNames options src dst rest fs
    else
      let subSrc := filepathJoin src sub.name
      let subDst := filepathJoin dst sub.name
      match fs.lstat subSrc with
      | none => (some (.osError .notExist), fs, [])
      | some (_, subNode) =>
        if subNode.isSymlink then
          copyTreeSubs rec copyFn ignoredNames options src dst rest fs
        else if subNode.isDir then
          match rec subSrc subDst options fs with
          | ((_, some e), fs', tr) => (some e, fs', Event.treeCall subSrc subDst :: tr)
          | ((_, none), fs', tr) =>
            match copyTreeSubs rec copyFn ignoredNames options src dst rest fs' with
            | (r, fs'', tr') => (r, fs'', Event.treeCall subSrc subDst :: (tr ++ tr'))
        else
          match copyFn subSrc subDst none fs with
          | ((_, some e), fs') => (some e, fs', [Event.copyCall subSrc subDst])
          | ((_, none), fs') =>
            match copyTreeSubs rec copyFn ignoredNames options src dst rest fs' with
            | (r, fs'', tr') => (r, fs'', Event.copyCall subSrc subDst :: tr')

/-- CopyTree from file.go: resolve the copy function, stat src, list its
entries, compute the ignore set, create dst with src's mode, process the
entries in listing order, and finish with a CopyStat on the pair.  The
recursion is bounded by a fuel argument; exhausted fuel is reported as an
error (never reached from a well-founded directory tree at sufficient
fuel). -/
def CopyTree (env : CopyEnv) :
    Nat → Path → Path → Option CopyTreeOptions → FS →
    (String × Option Err) × FS × List Event
  | 0, _, _, _, fs => (("", some (.osError .outOfFuel)), fs, [])
  | fuel + 1, src, dst, options, fs =>
    let copyFn := copyFunctionOf env options
    match fs.stat src with
    | .error e => (("", some (.osError e)), fs, [])
    | .ok (_, srcNode) =>
      match fs.readDir src with
      | .error e => (("", some (.osError e)), fs, [])
      | .ok subs =>
        let ignoredNames := ignoredNamesOf options src subs
        let tr0 := ignoreTrace options src subs
        match fs.mkdirAll dst srcNode.mode with
        | (some e, fs0) => (("", some (.osError e)), fs0, tr0)
        | (none, fs0) =>
          match copyTreeSubs (CopyTree env fuel) copyFn ignoredNames options
              src dst subs fs0 with
          | (some e, fs1, tr1) => (("", some e), fs1, tr0 ++ tr1)
          | (none, fs1, tr1) =>
            match CopyStat src dst none with
            | some e => (("", some e), fs1, tr0 ++ tr1)
            | none => ((dst, none), fs1, tr0 ++ tr1)

/-- RmTreeOptions from file.go; the OnError callback carries the failing
function, the failing path, and the error context. -/
structure RmTreeOptions where
  IgnoreErrors : Bool
  OnError : Option ((Path → Unit) → Path → Unit → Unit)

/-- RmTree from file.go: the body is a single os.Remove of the path; the
options are never consulted (the error-policy code is commented out in
the source). -/
def RmTree (path : Path) (options : Option RmTreeOptions) (fs : FS) :
    Option OsErr × FS :=
  osRemove path fs

/-- The source-side path an event mentions (the directory whose listing an
ignore call received, or the source argument of a copy/recursion call). -/
def Event.path : Event → Path
  | .ignoreCall s _ => s
  | .copyCall s _ => s
  | .treeCall s _ => s

/-- q lies strictly inside directory p: p followed by a slash is a prefix
of q, character-wise. -/
def pathUnder (p q : Path) : Prop :=
  p.data ++ ['/'] <+: q.data

/-! Concrete fixtures used to instantiate the theorems below. -/

/-- The benign environment: reads are never cut short. -/
def env0 : CopyEnv := ⟨none⟩

/-- An environment in which a reader reaches end of stream after one byte. -/
def envShort : CopyEnv := ⟨some 1⟩

/-- A filesystem holding a single named pipe at "p". -/
def fsPipe : FS := ⟨[("p", 0)], [(0, Node.pipe)], 1⟩

/-- A filesystem in which "x" and "y" are two hard links to one file. -/
def fsHard : FS := ⟨[("x", 0), ("y", 0)], [(0, Node.regular [7] 420)], 1⟩

/-- A filesystem with a regular file "t" and a symbolic link "link" to it. -/
def fsLink : FS :=
  ⟨[("t", 0), ("link", 1)], [(0, Node.regular [1, 2, 3] 420), (1, Node.symlink "t")], 2⟩

/-- A small directory tree: s containing files a, b and subdirectory c
holding d. -/
def fsA : FS :=
  ⟨[("s", 0), ("s/a", 1), ("s/b", 2), ("s/c", 3), ("s/c/d", 4)],
   [(0, Node.directory 493), (1, Node.regular [1, 2] 420), (2, Node.regular [3] 420),
    (3, Node.directory 493), (4, Node.regular [4] 420)], 5⟩

/-- A directory s whose only entry is a named pipe, so any per-file copy
into it fails. -/
def fsB : FS :=
  ⟨[("s", 0), ("s/p", 1)], [(0, Node.directory 493), (1, Node.pipe)], 2⟩

/-- A directory s holding a symbolic link l, a regular file f and a
subdirectory sd. -/
def fsC : FS :=
  ⟨[("s", 0), ("s/l", 1), ("s/f", 2), ("s/sd", 3), ("t", 4)],
   [(0, Node.directory 493), (1, Node.symlink "t"), (2, Node.regular [5] 420),
    (3, Node.directory 493), (4, Node.regular [9] 420)], 5⟩

/-- A CopyTreeOptions value whose Ignore callback always excludes "a". -/
def optIgnoreA : CopyTreeOptions := ⟨false, some (fun _ _ => ["a"]), none, false⟩

/-- The sorted listing of directory "s" in fsA. -/
def subsS : List FileInfo :=
  [⟨"a", Node.regular [1, 2] 420⟩, ⟨"b", Node.regular [3] 420⟩, ⟨"c", Node.directory 493⟩]

/-- fsA after CopyTree of "s" to "d" under optIgnoreA: everything except
the ignored entry "a" is copied. -/
def fsTreeCopied : FS :=
  ⟨[("d/c/d", 8), ("d/c", 7), ("d/b", 6), ("d", 5), ("s", 0), ("s/a", 1), ("s/b", 2),
    ("s/c", 3), ("s/c/d", 4)],
   [(8, Node.regular [4] 438), (7, Node.directory 493), (6, Node.regular [3] 438),
    (5, Node.directory 493), (0, Node.directory 493), (1, Node.regular [1, 2] 420),
    (2, Node.regular [3] 420), (3, Node.directory 493), (4, Node.regular [4] 420)], 9⟩

/-- The event trace of that CopyTree run. -/
def trS : List Event :=
  [Event.ignoreCall "s" subsS, Event.copyCall "s/b" "d/b", Event.treeCall "s/c" "d/c",
   Event.ignoreCall "s/c" [⟨"d", Node.regular [4] 420⟩], Event.copyCall "s/c/d" "d/c/d"]

/-- fsLink after os.Create of "u": the fresh empty regular file exists. -/
def fsCreateU : FS :=
  ⟨[("u", 2), ("t", 0), ("link", 1)],
   [(2, Node.regular [] 438), (0, Node.regular [1, 2, 3] 420), (1, Node.symlink "t")], 3⟩

/-- fsA after Copy2 of "s/a" into directory "s/c". -/
def fsACopied : FS :=
  ⟨[("s/c/a", 5), ("s", 0), ("s/a", 1), ("s/b", 2), ("s/c", 3), ("s/c/d", 4)],
   [(5, Node.regular [1, 2] 438), (0, Node.directory 493), (1, Node.regular [1, 2] 420),
    (2, Node.regular [3] 420), (3, Node.directory 493), (4, Node.regular [4] 420)], 6⟩

/-!
Theorems.  Each claim theorem carries its claim id in its doc comment;
helper lemmas come first.
-/

/-- Helper: a successful lstat returns exactly the node stored under the
returned inode identifier. -/
theorem lstat_node {fs : FS} {p : Path} {i : Nat} {n : Node}
    (h : fs.lstat p = some (i, n)) : fs.node i = some n := by
  unfold FS.lstat at h
  cases hl : fs.lookupId p with
  | none => simp [hl] at h
  | some j =>
    simp only [hl] at h
    cases hn : fs.node j with
    | none => simp [hn] at h
    | some m =>
      simp only [hn, Option.map_some', Option.some.injEq, Prod.mk.injEq] at h
      obtain ⟨h1, h2⟩ := h
      subst h1
      subst h2
      exact hn

/-- Helper: a successful resolve returns exactly the node stored under the
returned inode identifier. -/
theorem resolve_ok_node {fs : FS} :
    ∀ fuel p {i : Nat} {n : Node}, fs.resolve fuel p = .ok (i, n) → fs.node i = some n := by
  intro fuel
  induction fuel with
  | zero => intro p i n h; simp [FS.resolve] at h
  | succ k ih =>
    intro p i n h
    unfold FS.resolve at h
    cases hl : fs.lstat p with
    | none => simp [hl] at h
    | some q =>
      obtain ⟨j, m⟩ := q
      simp only [hl] at h
      cases m with
      | symlink t => exact ih t h
      | regular c md =>
        simp only [Except.ok.injEq, Prod.mk.injEq] at h
        obtain ⟨hi, hn⟩ := h
        rw [← hi, ← hn]; exact lstat_node hl
      | directory md =>
        simp only [Except.ok.injEq, Prod.mk.injEq] at h
        obtain ⟨hi, hn⟩ := h
        rw [← hi, ← hn]; exact lstat_node hl
      | pipe =>
        simp only [Except.ok.injEq, Prod.mk.injEq] at h
        obtain ⟨hi, hn⟩ := h
        rw [← hi, ← hn]; exact lstat_node hl

/-- Helper: specialisation of resolve_ok_node to os.Stat. -/
theorem stat_ok_node {fs : FS} {p : Path} {i : Nat} {n : Node}
    (h : fs.stat p = .ok (i, n)) : fs.node i = some n :=
  resolve_ok_node maxLinkResolve p h

/-- Claim C1 (amended): when dst exists and src and dst resolve to the same
underlying file (same inode identity, e.g. via a hard link) and src is not
a named pipe, CopyFile fails with SameFileError and leaves the filesystem —
hence the content of both paths — unchanged. -/
theorem copyFile_sameFile_of_not_pipe
    (env : CopyEnv) (src dst : Path) (options : Option CopyOptions) (fs : FS)
    (i : Nat) (srcNode dstNode : Node)
    (hs : fs.stat src = .ok (i, srcNode))
    (hd : fs.stat dst = .ok (i, dstNode))
    (hp : srcNode.isPipe = false) :
    CopyFile env src dst options fs = (("", some (Err.SameFileError src dst)), fs) := by
  unfold CopyFile
  simp only [hs, hd]
  simp [hp]

/-- Witness for C1's amended theorem at a concrete hard-link pair. -/
theorem copyFile_sameFile_of_not_pipe_w :
    fsHard.stat "x" = .ok (0, Node.regular [7] 420)
    ∧ fsHard.stat "y" = .ok (0, Node.regular [7] 420)
    ∧ CopyFile env0 "x" "y" none fsHard
      = (("", some (Err.SameFileError "x" "y")), fsHard) :=
  ⟨by decide, by decide,
    copyFile_sameFile_of_not_pipe env0 "x" "y" none fsHard 0
      (Node.regular [7] 420) (Node.regular [7] 420) (by decide) (by decide) (by decide)⟩

/-- Counterexample to claim C1 as stated: for a named pipe "p" copied onto
itself, dst exists and src and dst are the same underlying file, yet
CopyFile fails with SpecialFileError (the source pipe check precedes the
same-file check), not SameFileError. -/
theorem copyFile_sameFile_pipe_cex :
    fsPipe.stat "p" = .ok (0, Node.pipe)
    ∧ CopyFile env0 "p" "p" none fsPipe
      = (("", some (Err.SpecialFileError "p")), fsPipe)
    ∧ (CopyFile env0 "p" "p" none fsPipe).1.2 ≠ some (Err.SameFileError "p" "p") := by
  decide

/-- Claim C2 (code bug): with FollowSymlinks false and src a symbolic link,
CopyFile does not recreate the link.  os.Stat follows symbolic links, so
the statted source mode never carries the symlink bit and the recreation
branch is unreachable; the target's content is streamed into dst, which
ends up a fresh regular file — contradicting the function's own doc
comment.  Here "link" points at "t" (content bytes 1,2,3) and dst "b" is
created as a regular file holding those bytes, not as a symlink. -/
theorem copyFile_symlink_branch_dead :
    fsLink.lstat "link" = some (1, Node.symlink "t")
    ∧ (CopyFile env0 "link" "b" (some ⟨false⟩) fsLink).1 = ("b", none)
    ∧ (CopyFile env0 "link" "b" (some ⟨false⟩) fsLink).2.lstat "b"
      = some (2, Node.regular [1, 2, 3] 438) := by
  decide

/-- Claim C7: a named-pipe src makes CopyFile fail with SpecialFileError
with the filesystem unchanged (no destination created); and whenever src
stats successfully and the existing dst is a named pipe, CopyFile fails
with a SpecialFileError (on src when src itself is the same pipe, on dst
otherwise), again with the filesystem unchanged. -/
theorem copyFile_pipe_check (env : CopyEnv) (src dst : Path)
    (options : Option CopyOptions) (fs : FS) :
    (∀ i, fs.stat src = .ok (i, Node.pipe) →
      CopyFile env src dst options fs = (("", some (Err.SpecialFileError src)), fs))
    ∧ (∀ i n j, fs.stat src = .ok (i, n) → fs.stat dst = .ok (j, Node.pipe) →
      ∃ f, CopyFile env src dst options fs = (("", some (Err.SpecialFileError f)), fs)) := by
  constructor
  · intro i h
    unfold CopyFile
    simp only [h]
    simp [Node.isPipe]
  · intro i n j hs hd
    by_cases hp : n.isPipe = true
    · have hn : n = Node.pipe := by cases n <;> simp_all [Node.isPipe]
      subst hn
      refine ⟨src, ?_⟩
      unfold CopyFile
      simp only [hs]
      simp [Node.isPipe]
    · simp only [Bool.not_eq_true] at hp
      have hij : i ≠ j := by
        intro hEq
        subst hEq
        have h1 := stat_ok_node hs
        have h2 := stat_ok_node hd
        rw [h1] at h2
        have hn : n = Node.pipe := Option.some.inj h2
        subst hn
        simp [Node.isPipe] at hp
      refine ⟨dst, ?_⟩
      unfold CopyFile
      simp only [hs, hd]
      have hb : (i == j) = false := beq_eq_false_iff_ne.mpr hij
      simp only [hp, hb]
      simp [Node.isPipe]

/-- Witness for C7 at concrete inputs: a pipe source, and a regular source
with a pipe destination. -/
theorem copyFile_pipe_check_w :
    fsB.stat "s/p" = .ok (1, Node.pipe)
    ∧ CopyFile env0 "s/p" "q" none fsB
      = (("", some (Err.SpecialFileError "s/p")), fsB)
    ∧ ∃ f, CopyFile env0 "s" "s/p" none fsB
      = (("", some (Err.SpecialFileError f)), fsB) :=
  ⟨by decide,
    (copyFile_pipe_check env0 "s/p" "q" none fsB).1 1 (by decide),
    (copyFile_pipe_check env0 "s" "s/p" none fsB).2 0 (Node.directory 493) 1
      (by decide) (by decide)⟩

/-- Claim C3: in the regular-file branch of CopyFile (src stats as a
regular file, the dst checks pass, the destination was created), the
result is CopyNotCompleteError exactly when the number of bytes actually
transferred differs from the source's stat-reported size, and success
(returning dst) when the count matches; either way the transferred bytes
are what ends up in the destination file. -/
theorem copyFile_size_check (env : CopyEnv) (src dst : Path)
    (options : Option CopyOptions) (fs : FS) (i : Nat) (c : List Nat) (m : Nat)
    (dId : Nat) (fs1 : FS)
    (hs : fs.stat src = .ok (i, Node.regular c m))
    (hd : fs.stat dst = .error .notExist ∨
      ∃ j nd, fs.stat dst = .ok (j, nd) ∧ (i == j) = false ∧ nd.isPipe = false)
    (hc : fs.createFile maxLinkResolve dst = .ok (dId, fs1)) :
    ((transferBytes env c).length = c.length →
      CopyFile env src dst options fs
        = ((dst, none), fs1.writeContent dId (transferBytes env c)))
    ∧ ((transferBytes env c).length ≠ c.length →
      CopyFile env src dst options fs
        = (("", some (Err.CopyNotCompleteError src dst)),
           fs1.writeContent dId (transferBytes env c))) := by
  have hsp : (Node.regular c m).isPipe = false := rfl
  have key : CopyFile env src dst options fs
      = copyFileData env src dst (followSymlinksOf options) (Node.regular c m) fs := by
    rcases hd with h | ⟨j, nd, hdd, hij, hnp⟩
    · unfold CopyFile
      simp only [hs, hsp, h]
      simp
    · unfold CopyFile
      simp only [hs, hsp, hdd, hij, hnp]
      simp
  rw [key]
  unfold copyFileData
  have hsl : (Node.regular c m).isSymlink = false := rfl
  simp only [hsl, Bool.and_false, Bool.false_eq_true, if_false]
  unfold FS.openFile
  simp only [hs, hc]
  simp only [ioCopyFrom]
  constructor
  · intro hlen
    have hb : ((transferBytes env c).length == (Node.regular c m).size) = true := by
      simp [Node.size, hlen]
    simp [hb]
  · intro hlen
    have hb : ((transferBytes env c).length == (Node.regular c m).size) = false := by
      simp [Node.size]
      exact hlen
    simp [hb]

/-- Witness for C3: copying the 3-byte file "t" under an environment that
cuts the read short after one byte yields CopyNotCompleteError, and the
partially written destination holds that one byte. -/
theorem copyFile_size_check_w :
    fsLink.stat "t" = .ok (0, Node.regular [1, 2, 3] 420)
    ∧ (transferBytes envShort [1, 2, 3]).length ≠ [1, 2, 3].length
    ∧ CopyFile envShort "t" "u" none fsLink
      = (("", some (Err.CopyNotCompleteError "t" "u")),
         fsCreateU.writeContent 2 (transferBytes envShort [1, 2, 3])) :=
  ⟨by decide, by decide,
    (copyFile_size_check envShort "t" "u" none fsLink 0 [1, 2, 3] 420 2 fsCreateU
      (by decide) (Or.inl (by decide)) (by decide)).2 (by decide)⟩

/-- Claim C6: when dst exists and is a directory, Copy2 redirects the
destination to dst/basename(src); on success it returns that redirected
path, and a failure of the content-copy step is propagated (the
metadata-copy step, a stub, never fails). -/
theorem copy2_redirect (env : CopyEnv) (src dst : Path)
    (options : Option CopyOptions) (fs : FS) (j : Nat) (m : Nat)
    (hd : fs.stat dst = .ok (j, Node.directory m)) :
    (∀ p fs', CopyFile env src (filepathJoin dst (filepathBase src))
        (some ⟨followSymlinksOf options⟩) fs = ((p, none), fs') →
      Copy2 env src dst options fs
        = ((filepathJoin dst (filepathBase src), none), fs'))
    ∧ (∀ p e fs', CopyFile env src (filepathJoin dst (filepathBase src))
        (some ⟨followSymlinksOf options⟩) fs = ((p, some e), fs') →
      Copy2 env src dst options fs = (("", some e), fs')) := by
  constructor
  · intro p fs' h
    unfold Copy2
    simp only [hd, h]
    simp [CopyStat]
  · intro p e fs' h
    unfold Copy2
    simp only [hd, h]

/-- Witness for C6: copying file "s/a" into existing directory "s/c"
returns the redirected path "s/c/a". -/
theorem copy2_redirect_w :
    fsA.stat "s/c" = .ok (3, Node.directory 493)
    ∧ filepathJoin "s/c" (filepathBase "s/a") = "s/c/a"
    ∧ Copy2 env0 "s/a" "s/c" none fsA = (("s/c/a", none), fsACopied) :=
  ⟨by decide, by decide,
    (copy2_redirect env0 "s/a" "s/c" none fsA 3 493 (by decide)).1 "s/c/a" fsACopied
      (by decide)⟩

/-- Claim C9: RmTree ignores its options entirely and is definitionally the
single non-recursive primitive removal; consequently it fails with the
OS directory-not-empty error on any non-empty directory tree. -/
theorem rmTree_single_remove :
    (∀ path options fs, RmTree path options fs = osRemove path fs)
    ∧ (∀ path options fs i m, fs.lstat path = some (i, Node.directory m) →
        fs.hasChildren path = true →
        RmTree path options fs = (some OsErr.dirNotEmpty, fs)) := by
  constructor
  · intro path options fs
    rfl
  · intro path options fs i m hl hc
    unfold RmTree osRemove
    simp only [hl, hc]
    simp

/-- Witness for C9: removing the non-empty directory "s" fails with the
directory-not-empty error and changes nothing. -/
theorem rmTree_single_remove_w :
    fsA.lstat "s" = some (0, Node.directory 493)
    ∧ fsA.hasChildren "s" = true
    ∧ RmTree "s" none fsA = (some OsErr.dirNotEmpty, fsA) :=
  ⟨by decide, by decide,
    (rmTree_single_remove).2 "s" none fsA 0 493 (by decide) (by decide)⟩

/-- Claim C10: whenever CopyFile, Copy2 or CopyTree returns a non-nil
error, the accompanying path result is the empty string; a non-empty
destination path is only ever returned with a nil error. -/
theorem copy_error_empty_path :
    (∀ env src dst options fs,
      (CopyFile env src dst options fs).1.2.isSome = true →
      (CopyFile env src dst options fs).1.1 = "")
    ∧ (∀ env src dst options fs,
      (Copy2 env src dst options fs).1.2.isSome = true →
      (Copy2 env src dst options fs).1.1 = "")
    ∧ (∀ env fuel src dst options fs,
      (CopyTree env fuel src dst options fs).1.2.isSome = true →
      (CopyTree env fuel src dst options fs).1.1 = "") := by
  refine ⟨?_, ?_, ?_⟩
  · intro env src dst options fs
    unfold CopyFile copyFileData
    (repeat' split) <;> (try simp) <;> (repeat' split) <;> (try simp)
  · intro env src dst options fs
    unfold Copy2
    (repeat' split) <;> (try simp [CopyStat]) <;> (repeat' split) <;> (try simp)
  · intro env fuel src dst options fs
    cases fuel with
    | zero => simp [CopyTree]
    | succ k =>
      simp only [CopyTree]
      (repeat' split) <;> (try simp)

/-- Witness for C10: a failing CopyFile, Copy2 and CopyTree each return
the empty path alongside their error. -/
theorem copy_error_empty_path_w :
    (CopyFile env0 "nope" "x" none fsPipe).1.2.isSome = true
    ∧ (CopyFile env0 "nope" "x" none fsPipe).1.1 = ""
    ∧ (Copy2 env0 "nope" "x" none fsPipe).1.2.isSome = true
    ∧ (Copy2 env0 "nope" "x" none fsPipe).1.1 = ""
    ∧ (CopyTree env0 1 "nope" "x" none fsPipe).1.2.isSome = true
    ∧ (CopyTree env0 1 "nope" "x" none fsPipe).1.1 = "" :=
  ⟨by decide, copy_error_empty_path.1 env0 "nope" "x" none fsPipe (by decide),
   by decide, copy_error_empty_path.2.1 env0 "nope" "x" none fsPipe (by decide),
   by decide, copy_error_empty_path.2.2 env0 1 "nope" "x" none fsPipe (by decide)⟩

/-- Claim C5: the entry loop of CopyTree fails fast — once processing a
prefix of the entry list ends in an error, appending further sibling
entries changes nothing (they are never processed), and CopyTree
propagates that single first error (never an aggregate) as its own
result with an empty path. -/
theorem copyTree_fail_fast :
    (∀ (rec : TreeFn) (copyFn : CopyFn) (ign : List String)
        (options : Option CopyTreeOptions) (src dst : Path) (xs : List FileInfo)
        (fs : FS) (e : Err) (fs' : FS) (tr : List Event),
      copyTreeSubs rec copyFn ign options src dst xs fs = (some e, fs', tr) →
      ∀ ys, copyTreeSubs rec copyFn ign options src dst (xs ++ ys) fs = (some e, fs', tr))
    ∧ (∀ (env : CopyEnv) (fuel : Nat) (src dst : Path)
        (options : Option CopyTreeOptions) (fs : FS) (srcI : Nat) (srcNode : Node)
        (subs : List FileInfo) (fs0 : FS) (e : Err) (fs1 : FS) (tr1 : List Event),
      fs.stat src = .ok (srcI, srcNode) →
      fs.readDir src = .ok subs →
      fs.mkdirAll dst srcNode.mode = (none, fs0) →
      copyTreeSubs (CopyTree env fuel) (copyFunctionOf env options)
        (ignoredNamesOf options src subs) options src dst subs fs0
        = (some e, fs1, tr1) →
      CopyTree env (fuel + 1) src dst options fs
        = (("", some e), fs1, ignoreTrace options src subs ++ tr1)) := by
  constructor
  · intro rec copyFn ign options src dst xs
    induction xs with
    | nil =>
      intro fs e fs' tr h ys
      simp [copyTreeSubs] at h
    | cons sub rest ih =>
      intro fs e fs' tr h ys
      rw [List.cons_append]
      by_cases hig : sub.name ∈ ign
      · simp only [copyTreeSubs, if_pos hig] at h ⊢
        exact ih fs e fs' tr h ys
      · simp only [copyTreeSubs, if_neg hig] at h ⊢
        rcases hls : fs.lstat (filepathJoin src sub.name) with _ | ⟨i, nd⟩ <;>
          simp only [hls] at h ⊢
        · exact h
        · by_cases hsym : nd.isSymlink = true
          · simp only [hsym, if_true] at h ⊢
            exact ih fs e fs' tr h ys
          · simp only [hsym, if_false, Bool.false_eq_true] at h ⊢
            by_cases hdir : nd.isDir = true
            · simp only [hdir, if_true] at h ⊢
              rcases hrec : rec (filepathJoin src sub.name) (filepathJoin dst sub.name)
                  options fs with ⟨⟨p, rr⟩, fsr, trr⟩
              cases rr with
              | some e2 =>
                simp only [hrec] at h ⊢
                exact h
              | none =>
                simp only [hrec] at h ⊢
                rcases hrest : copyTreeSubs rec copyFn ign options src dst rest fsr
                  with ⟨r2, fs2, tr2⟩
                simp only [hrest, Prod.mk.injEq] at h
                obtain ⟨h1, h2, h3⟩ := h
                subst h1
                subst h2
                subst h3
                rw [ih fsr e fs2 tr2 hrest ys]
            · simp only [hdir, if_false, Bool.false_eq_true] at h ⊢
              rcases hcf : copyFn (filepathJoin src sub.name) (filepathJoin dst sub.name)
                  none fs with ⟨⟨p, rr⟩, fsr⟩
              cases rr with
              | some e2 =>
                simp only [hcf] at h ⊢
                exact h
              | none =>
                simp only [hcf] at h ⊢
                rcases hrest : copyTreeSubs rec copyFn ign options src dst rest fsr
                  with ⟨r2, fs2, tr2⟩
                simp only [hrest, Prod.mk.injEq] at h
                obtain ⟨h1, h2, h3⟩ := h
                subst h1
                subst h2
                subst h3
                rw [ih fsr e fs2 tr2 hrest ys]
  · intro env fuel src dst options fs srcI srcNode subs fs0 e fs1 tr1 hs hr hm hloop
    simp only [CopyTree, hs, hr, hm, hloop]

/-- Witness for C5: processing the single entry list [p] of directory s
fails (the pipe child cannot be copied), and appending a sibling entry
changes nothing; the enclosing CopyTree returns that same single error. -/
theorem copyTree_fail_fast_w :
    copyTreeSubs (CopyTree env0 1) (copyFunctionOf env0 none) [] none "s" "d"
        [⟨"p", Node.pipe⟩] fsB
      = (some (Err.SpecialFileError "s/p"), fsB, [Event.copyCall "s/p" "d/p"])
    ∧ copyTreeSubs (CopyTree env0 1) (copyFunctionOf env0 none) [] none "s" "d"
        ([⟨"p", Node.pipe⟩] ++ [⟨"q", Node.pipe⟩]) fsB
      = (some (Err.SpecialFileError "s/p"), fsB, [Event.copyCall "s/p" "d/p"]) := by
  constructor
  · decide
  · exact copyTree_fail_fast.1 (CopyTree env0 1) (copyFunctionOf env0 none) [] none
      "s" "d" [⟨"p", Node.pipe⟩] fsB (Err.SpecialFileError "s/p") _ _ (by decide)
      [⟨"q", Node.pipe⟩]

/-- Claim C8: the per-entry dispatch of CopyTree's loop, for an entry not
in the ignore set: a symbolic-link entry (by lstat) is a no-op — the loop
just continues, nothing copied or recreated; a directory entry triggers
the recursive call on (subSrc, subDst) with the parent's options; any
other entry triggers the configured copy function on (subSrc, subDst)
with nil per-file options. -/
theorem copyTree_dispatch (rec : TreeFn) (copyFn : CopyFn) (ign : List String)
    (options : Option CopyTreeOptions) (src dst : Path) (sub : FileInfo)
    (rest : List FileInfo) (fs : FS)
    (hig : sub.name ∉ ign) :
    (∀ i t, fs.lstat (filepathJoin src sub.name) = some (i, Node.symlink t) →
      copyTreeSubs rec copyFn ign options src dst (sub :: rest) fs
        = copyTreeSubs rec copyFn ign options src dst rest fs)
    ∧ (∀ i m p e fs' tr, fs.lstat (filepathJoin src sub.name) = some (i, Node.directory m) →
      rec (filepathJoin src sub.name) (filepathJoin dst sub.name) options fs
        = ((p, some e), fs', tr) →
      copyTreeSubs rec copyFn ign options src dst (sub :: rest) fs
        = (some e, fs',
           Event.treeCall (filepathJoin src sub.name) (filepathJoin dst sub.name) :: tr))
    ∧ (∀ i m p fs' tr, fs.lstat (filepathJoin src sub.name) = some (i, Node.directory m) →
      rec (filepathJoin src sub.name) (filepathJoin dst sub.name) options fs
        = ((p, none), fs', tr) →
      copyTreeSubs rec copyFn ign options src dst (sub :: rest) fs
        = ((copyTreeSubs rec copyFn ign options src dst rest fs').1,
           (copyTreeSubs rec copyFn ign options src dst rest fs').2.1,
           Event.treeCall (filepathJoin src sub.name) (filepathJoin dst sub.name)
             :: (tr ++ (copyTreeSubs rec copyFn ign options src dst rest fs').2.2)))
    ∧ (∀ i nd p e fs', fs.lstat (filepathJoin src sub.name) = some (i, nd) →
      nd.isSymlink = false → nd.isDir = false →
      copyFn (filepathJoin src sub.name) (filepathJoin dst sub.name) none fs
        = ((p, some e), fs') →
      copyTreeSubs rec copyFn ign options src dst (sub :: rest) fs
        = (some e, fs',
           [Event.copyCall (filepathJoin src sub.name) (filepathJoin dst sub.name)]))
    ∧ (∀ i nd p fs', fs.lstat (filepathJoin src sub.name) = some (i, nd) →
      nd.isSymlink = false → nd.isDir = false →
      copyFn (filepathJoin src sub.name) (filepathJoin dst sub.name) none fs
        = ((p, none), fs') →
      copyTreeSubs rec copyFn ign options src dst (sub :: rest) fs
        = ((copyTreeSubs rec copyFn ign options src dst rest fs').1,
           (copyTreeSubs rec copyFn ign options src dst rest fs').2.1,
           Event.copyCall (filepathJoin src sub.name) (filepathJoin dst sub.name)
             :: (copyTreeSubs rec copyFn ign options src dst rest fs').2.2)) := by
  refine ⟨?_, ?_, ?_, ?_, ?_⟩
  · intro i t hls
    simp only [copyTreeSubs, if_neg hig, hls]
    simp [Node.isSymlink]
  · intro i m p e fs' tr hls hrec
    simp only [copyTreeSubs, if_neg hig, hls, hrec]
    simp [Node.isSymlink, Node.isDir]
  · intro i m p fs' tr hls hrec
    simp only [copyTreeSubs, if_neg hig, hls, hrec]
    simp only [Node.isSymlink, Node.isDir, if_false, if_true, Bool.false_eq_true]
  · intro i nd p e fs' hls hsym hdir hcf
    simp only [copyTreeSubs, if_neg hig, hls, hsym, hdir, hcf]
    simp
  · intro i nd p fs' hls hsym hdir hcf
    simp only [copyTreeSubs, if_neg hig, hls, hsym, hdir, hcf]
    rcases hrest : copyTreeSubs rec copyFn ign options src dst rest fs'
      with ⟨r2, fs2, tr2⟩
    simp [hrest]

/-- Witness for C8 at concrete entries of directory s in fsC: the symlink
entry l is skipped, and the regular entry f goes to the copy function with
nil options. -/
theorem copyTree_dispatch_w :
    fsC.lstat "s/l" = some (1, Node.symlink "t")
    ∧ copyTreeSubs (CopyTree env0 1) (copyFunctionOf env0 none) [] none "s" "d"
        [⟨"l", Node.symlink "t"⟩] fsC
      = copyTreeSubs (CopyTree env0 1) (copyFunctionOf env0 none) [] none "s" "d" [] fsC
    ∧ copyTreeSubs (CopyTree env0 1) (copyFunctionOf env0 none) [] none "s" "d"
        [⟨"f", Node.regular [5] 420⟩] fsC
      = ((copyTreeSubs (CopyTree env0 1) (copyFunctionOf env0 none) [] none "s" "d" []
            ((Copy2 env0 "s/f" "d/f" none fsC).2)).1,
         (copyTreeSubs (CopyTree env0 1) (copyFunctionOf env0 none) [] none "s" "d" []
            ((Copy2 env0 "s/f" "d/f" none fsC).2)).2.1,
         Event.copyCall "s/f" "d/f"
           :: (copyTreeSubs (CopyTree env0 1) (copyFunctionOf env0 none) [] none "s" "d" []
            ((Copy2 env0 "s/f" "d/f" none fsC).2)).2.2) :=
  ⟨by decide,
    (copyTree_dispatch (CopyTree env0 1) (copyFunctionOf env0 none) [] none "s" "d"
        ⟨"l", Node.symlink "t"⟩ [] fsC (by decide)).1 1 "t" (by decide),
    (copyTree_dispatch (CopyTree env0 1) (copyFunctionOf env0 none) [] none "s" "d"
        ⟨"f", Node.regular [5] 420⟩ [] fsC (by decide)).2.2.2.2 2
      (Node.regular [5] 420) "d/f" ((Copy2 env0 "s/f" "d/f" none fsC).2)
      (by decide) (by decide) (by decide) (by decide)⟩

/-- Helper: character data of a joined path. -/
theorem join_data (a b : Path) : (filepathJoin a b).data = a.data ++ '/' :: b.data := by
  show (a ++ "/" ++ b).data = _
  rw [String.data_append, String.data_append]
  simp

/-- Helper: a joined path lies under its directory. -/
theorem pathUnder_join (p n : Path) : pathUnder p (filepathJoin p n) := by
  unfold pathUnder
  rw [join_data]
  exact ⟨n.data, by simp⟩

/-- Helper: lying under a subdirectory implies lying under the directory. -/
theorem pathUnder_trans_join {p n q : Path} (h : pathUnder (filepathJoin p n) q) :
    pathUnder p q := by
  unfold pathUnder at h ⊢
  refine List.IsPrefix.trans ⟨n.data ++ ['/'], ?_⟩ h
  rw [join_data]
  simp

/-- Helper: a path strictly under p is not p itself. -/
theorem pathUnder_ne {p q : Path} (h : pathUnder p q) : q ≠ p := by
  intro hEq
  subst hEq
  have hl := h.length_le
  simp at hl

/-- Helper: joining distinct names under one directory yields distinct
paths. -/
theorem filepathJoin_inj {src a b : Path} (h : filepathJoin src a = filepathJoin src b) :
    a = b := by
  have hd := congrArg String.data h
  rw [join_data, join_data] at hd
  have h2 := List.append_cancel_left hd
  simp only [List.cons.injEq, true_and] at h2
  ext1
  exact h2

/-- Helper: a separator-free name joined under src never lies under a
sibling entry's subtree. -/
theorem not_under_sibling {src a n : Path} (hslash : '/' ∉ n.data)
    (h : pathUnder (filepathJoin src a) (filepathJoin src n)) : False := by
  obtain ⟨t, ht⟩ := h
  simp only [join_data] at ht
  have ht2 : src.data ++ ('/' :: (a.data ++ '/' :: t)) = src.data ++ '/' :: n.data := by
    simpa [List.append_assoc] using ht
  have h3 := List.append_cancel_left ht2
  simp only [List.cons.injEq, true_and] at h3
  apply hslash
  rw [← h3]
  exact List.mem_append_right _ (List.mem_cons_self _ _)

/-- Helper: the ignore trace holds at most the one callback event. -/
theorem mem_ignoreTrace {options : Option CopyTreeOptions} {src : Path}
    {subs : List FileInfo} {e : Event} (h : e ∈ ignoreTrace options src subs) :
    e = Event.ignoreCall src subs := by
  unfold ignoreTrace at h
  cases options with
  | none => simp at h
  | some o =>
    cases hI : o.Ignore with
    | none => simp [hI] at h
    | some f =>
      simp only [hI, List.mem_singleton] at h
      exact h

/-- Helper: membership after sorted insertion. -/
theorem mem_insertSorted {x a : String} :
    ∀ {l : List String}, x ∈ insertSorted a l → x = a ∨ x ∈ l := by
  intro l
  induction l with
  | nil =>
    intro h
    simp [insertSorted] at h
    exact Or.inl h
  | cons y ys ih =>
    intro h
    unfold insertSorted at h
    by_cases hle : strLe a y = true
    · rw [if_pos hle] at h
      rcases List.mem_cons.mp h with h1 | h2
      · exact Or.inl h1
      · exact Or.inr h2
    · rw [if_neg hle] at h
      rcases List.mem_cons.mp h with h1 | h2
      · exact Or.inr (h1 ▸ List.mem_cons_self y ys)
      · rcases ih h2 with h3 | h4
        · exact Or.inl h3
        · exact Or.inr (List.mem_cons_of_mem y h4)

/-- Helper: sorting introduces no new names. -/
theorem mem_sortNames {x : String} :
    ∀ {l : List String}, x ∈ sortNames l → x ∈ l := by
  intro l
  induction l with
  | nil =>
    intro h
    simp [sortNames] at h
  | cons a as ih =>
    intro h
    rcases mem_insertSorted (l := sortNames as) h with h3 | h4
    · exact h3 ▸ List.mem_cons_self a as
    · exact List.mem_cons_of_mem a (ih h4)

/-- Helper: every name in a directory listing is separator-free. -/
theorem readDir_names {fs : FS} {p : Path} {subs : List FileInfo}
    (h : fs.readDir p = .ok subs) :
    ∀ sub ∈ subs, '/' ∉ sub.name.data := by
  intro sub hsub
  unfold FS.readDir at h
  cases hst : fs.stat p with
  | error er => simp [hst] at h
  | ok q =>
    obtain ⟨i, nd⟩ := q
    simp only [hst] at h
    cases nd with
    | regular c m => simp at h
    | pipe => simp at h
    | symlink t => simp at h
    | directory m =>
      simp only [Except.ok.injEq] at h
      subst h
      rcases List.mem_filterMap.mp hsub with ⟨n, hn, hf⟩
      rcases hq : fs.lstat (filepathJoin p n) with _ | q2
      · rw [hq] at hf
        cases hf
      · rw [hq] at hf
        simp only [Option.map_some', Option.some.injEq] at hf
        have hname : sub.name = n := by rw [← hf]
        have hn2 : n ∈ childNamesOf fs p := mem_sortNames hn
        rcases List.mem_filterMap.mp (List.mem_dedup.mp hn2) with ⟨en, hen, hstrip⟩
        unfold stripChild at hstrip
        rcases hdp : dropPrefixList (p.data ++ ['/']) en.1.data with _ | r
        · simp [hdp] at hstrip
        · simp only [hdp] at hstrip
          by_cases hcond : r = [] ∨ '/' ∈ r
          · rw [if_pos hcond] at hstrip
            cases hstrip
          · rw [if_neg hcond] at hstrip
            have hnr : n = String.mk r := (Option.some.inj hstrip).symm
            rw [hname, hnr]
            intro hmem
            exact hcond (Or.inr hmem)

/-- Helper: every event produced by the entry loop lies strictly under the
visited directory, provided the recursive call's events stay at or under
its own source. -/
theorem subsEvents (rec : TreeFn) (copyFn : CopyFn) (ign : List String)
    (options : Option CopyTreeOptions) (src dst : Path)
    (hrec : ∀ s d o fs, ∀ e ∈ (rec s d o fs).2.2, e.path = s ∨ pathUnder s e.path) :
    ∀ subs fs, ∀ e ∈ (copyTreeSubs rec copyFn ign options src dst subs fs).2.2,
      pathUnder src e.path := by
  intro subs
  induction subs with
  | nil =>
    intro fs e he
    simp [copyTreeSubs] at he
  | cons sub rest ih =>
    intro fs e he
    by_cases hig : sub.name ∈ ign
    · simp only [copyTreeSubs, if_pos hig] at he
      exact ih fs e he
    · simp only [copyTreeSubs, if_neg hig] at he
      rcases hls : fs.lstat (filepathJoin src sub.name) with _ | ⟨i, nd⟩ <;>
        simp only [hls] at he
      · simp at he
      · by_cases hsym : nd.isSymlink = true
        · simp only [hsym, if_true] at he
          exact ih fs e he
        · simp only [hsym, if_false, Bool.false_eq_true] at he
          by_cases hdir : nd.isDir = true
          · simp only [hdir, if_true] at he
            rcases hr : rec (filepathJoin src sub.name) (filepathJoin dst sub.name)
                options fs with ⟨⟨p, rr⟩, fsr, trr⟩
            cases rr with
            | some e2 =>
              simp only [hr] at he
              rcases List.mem_cons.mp he with h1 | h2
              · subst h1
                exact pathUnder_join src sub.name
              · rcases hrec _ _ _ _ e (by rw [hr]; exact h2) with h3 | h4
                · rw [h3]
                  exact pathUnder_join src sub.name
                · exact pathUnder_trans_join h4
            | none =>
              simp only [hr] at he
              rcases hrest : copyTreeSubs rec copyFn ign options src dst rest fsr
                with ⟨r2, fs2, tr2⟩
              simp only [hrest] at he
              rcases List.mem_cons.mp he with h1 | h2
              · subst h1
                exact pathUnder_join src sub.name
              · rcases List.mem_append.mp h2 with h3 | h4
                · rcases hrec _ _ _ _ e (by rw [hr]; exact h3) with h5 | h6
                  · rw [h5]
                    exact pathUnder_join src sub.name
                  · exact pathUnder_trans_join h6
                · exact ih fsr e (by rw [hrest]; exact h4)
          · simp only [hdir, if_false, Bool.false_eq_true] at he
            rcases hc : copyFn (filepathJoin src sub.name) (filepathJoin dst sub.name)
                none fs with ⟨⟨p, rr⟩, fsr⟩
            cases rr with
            | some e2 =>
              simp only [hc, List.mem_singleton] at he
              subst he
              exact pathUnder_join src sub.name
            | none =>
              simp only [hc] at he
              rcases hrest : copyTreeSubs rec copyFn ign options src dst rest fsr
                with ⟨r2, fs2, tr2⟩
              simp only [hrest] at he
              rcases List.mem_cons.mp he with h1 | h2
              · subst h1
                exact pathUnder_join src sub.name
              · exact ih fsr e (by rw [hrest]; exact h2)

/-- Helper: every event of a CopyTree run mentions the call's own source
directory or a path strictly under it. -/
theorem treeEvents (env : CopyEnv) :
    ∀ fuel src dst options fs, ∀ e ∈ (CopyTree env fuel src dst options fs).2.2,
      e.path = src ∨ pathUnder src e.path := by
  intro fuel
  induction fuel with
  | zero =>
    intro src dst options fs e he
    simp [CopyTree] at he
  | succ k ih =>
    intro src dst options fs e he
    simp only [CopyTree] at he
    cases hst : fs.stat src with
    | error er => simp [hst] at he
    | ok q =>
      obtain ⟨i, nd⟩ := q
      simp only [hst] at he
      cases hrd : fs.readDir src with
      | error er => simp [hrd] at he
      | ok subs =>
        simp only [hrd] at he
        rcases hm : fs.mkdirAll dst nd.mode with ⟨merr, fs0⟩
        cases merr with
        | some e2 =>
          simp only [hm] at he
          exact Or.inl (by rw [mem_ignoreTrace he]; rfl)

        | none =>
          simp only [hm] at he
          rcases hloop : copyTreeSubs (CopyTree env k) (copyFunctionOf env options)
              (ignoredNamesOf options src subs) options src dst subs fs0
            with ⟨r1, fs1, tr1⟩
          simp only [hloop] at he
          have hsplit : e ∈ ignoreTrace options src subs ++ tr1 := by
            cases r1 with
            | some e3 => exact he
            | none => simpa [CopyStat] using he
          rcases List.mem_append.mp hsplit with h1 | h2
          · exact Or.inl (by rw [mem_ignoreTrace h1]; rfl)
          · refine Or.inr ?_
            exact subsEvents (CopyTree env k) (copyFunctionOf env options)
              (ignoredNamesOf options src subs) options src dst
              (fun s d o f e2 he2 => ih s d o f e2 he2) subs fs0 e
              (by rw [hloop]; exact h2)

/-- Helper: no event anywhere in the loop's trace mentions the subtree of
an entry whose (separator-free) name is in the ignore set: the entry is
neither passed to the copy function, nor recursed into, nor visited. -/
theorem subs_ignored_path_free (rec : TreeFn) (copyFn : CopyFn) (ign : List String)
    (options : Option CopyTreeOptions) (src dst : Path) (n : String)
    (hrec : ∀ s d2 o fs, ∀ e ∈ (rec s d2 o fs).2.2, e.path = s ∨ pathUnder s e.path)
    (hn : n ∈ ign) (hslash : '/' ∉ n.data) :
    ∀ subs fs, ∀ e ∈ (copyTreeSubs rec copyFn ign options src dst subs fs).2.2,
      e.path ≠ filepathJoin src n := by
  intro subs
  induction subs with
  | nil =>
    intro fs e he
    simp [copyTreeSubs] at he
  | cons sub rest ih =>
    intro fs e he
    by_cases hig : sub.name ∈ ign
    · simp only [copyTreeSubs, if_pos hig] at he
      exact ih fs e he
    · have hne : sub.name ≠ n := fun hEq => hig (hEq ▸ hn)
      have hjne : filepathJoin src sub.name ≠ filepathJoin src n :=
        fun hEq => hne (filepathJoin_inj hEq)
      simp only [copyTreeSubs, if_neg hig] at he
      rcases hls : fs.lstat (filepathJoin src sub.name) with _ | ⟨i, nd⟩ <;>
        simp only [hls] at he
      · simp at he
      · by_cases hsym : nd.isSymlink = true
        · simp only [hsym, if_true] at he
          exact ih fs e he
        · simp only [hsym, if_false, Bool.false_eq_true] at he
          by_cases hdir : nd.isDir = true
          · simp only [hdir, if_true] at he
            rcases hr : rec (filepathJoin src sub.name) (filepathJoin dst sub.name)
                options fs with ⟨⟨p, rr⟩, fsr, trr⟩
            cases rr with
            | some e2 =>
              simp only [hr] at he
              rcases List.mem_cons.mp he with h1 | h2
              · subst h1
                exact hjne
              · rcases hrec _ _ _ _ e (by rw [hr]; exact h2) with h3 | h4
                · rw [h3]
                  exact hjne
                · intro hEq
                  rw [hEq] at h4
                  exact not_under_sibling hslash h4
            | none =>
              simp only [hr] at he
              rcases hrest : copyTreeSubs rec copyFn ign options src dst rest fsr
                with ⟨r2, fs2, tr2⟩
              simp only [hrest] at he
              rcases List.mem_cons.mp he with h1 | h2
              · subst h1
                exact hjne
              · rcases List.mem_append.mp h2 with h3 | h4
                · rcases hrec _ _ _ _ e (by rw [hr]; exact h3) with h5 | h6
                  · rw [h5]
                    exact hjne
                  · intro hEq
                    rw [hEq] at h6
                    exact not_under_sibling hslash h6
                · exact ih fsr e (by rw [hrest]; exact h4)
          · simp only [hdir, if_false, Bool.false_eq_true] at he
            rcases hc : copyFn (filepathJoin src sub.name) (filepathJoin dst sub.name)
                none fs with ⟨⟨p, rr⟩, fsr⟩
            cases rr with
            | some e2 =>
              simp only [hc, List.mem_singleton] at he
              subst he
              exact hjne
            | none =>
              simp only [hc] at he
              rcases hrest : copyTreeSubs rec copyFn ign options src dst rest fsr
                with ⟨r2, fs2, tr2⟩
              simp only [hrest] at he
              rcases List.mem_cons.mp he with h1 | h2
              · subst h1
                exact hjne
              · exact ih fsr e (by rw [hrest]; exact h2)

/-- Claim C4: for a CopyTree call on a directory that stats and lists
successfully, with an Ignore callback supplied, the callback is invoked
exactly once for that directory — with exactly the directory's source path
and its entry list (the head of the trace, and never again in the rest,
deeper calls being invoked on strictly deeper paths) — and no entry whose
name lies in the returned ignore set is ever passed to the copy function or
recursed into anywhere in the traversal; without a callback the ignore set
is empty. -/
theorem copyTree_ignore_once (env : CopyEnv) (fuel : Nat) (src dst : Path)
    (o : CopyTreeOptions) (g : Path → List FileInfo → List String) (fs : FS)
    (srcI : Nat) (srcNode : Node) (subs : List FileInfo)
    (res : String × Option Err) (fs' : FS) (tr : List Event)
    (hg : o.Ignore = some g)
    (hs : fs.stat src = .ok (srcI, srcNode))
    (hr : fs.readDir src = .ok subs)
    (hrun : CopyTree env (fuel + 1) src dst (some o) fs = (res, fs', tr)) :
    (∃ tr1, tr = Event.ignoreCall src subs :: tr1
      ∧ ∀ subs2, Event.ignoreCall src subs2 ∉ tr1)
    ∧ (∀ sub ∈ subs, sub.name ∈ g src subs → ∀ d,
        Event.copyCall (filepathJoin src sub.name) d ∉ tr
        ∧ Event.treeCall (filepathJoin src sub.name) d ∉ tr)
    ∧ ignoredNamesOf (some o) src subs = g src subs
    ∧ (∀ o2 : CopyTreeOptions, o2.Ignore = none → ignoredNamesOf (some o2) src subs = [])
    ∧ ignoredNamesOf none src subs = [] := by
  have hignEq : ignoredNamesOf (some o) src subs = g src subs := by
    simp [ignoredNamesOf, hg]
  have htr0 : ignoreTrace (some o) src subs = [Event.ignoreCall src subs] := by
    simp [ignoreTrace, hg]
  simp only [CopyTree, hs, hr] at hrun
  rw [htr0, hignEq] at hrun
  rcases hm : fs.mkdirAll dst srcNode.mode with ⟨merr, fs0⟩
  simp only [hm] at hrun
  cases merr with
  | some e2 =>
    simp only [Prod.mk.injEq] at hrun
    obtain ⟨hres, hfs, htr⟩ := hrun
    refine ⟨⟨[], by rw [← htr], by simp⟩, ?_, hignEq, ?_, ?_⟩
    · intro sub hsub hgn d
      rw [← htr]
      constructor <;> simp
    · intro o2 h2
      simp [ignoredNamesOf, h2]
    · simp [ignoredNamesOf]
  | none =>
    rcases hloop : copyTreeSubs (CopyTree env fuel) (copyFunctionOf env (some o))
        (g src subs) (some o) src dst subs fs0 with ⟨r1, fs1, tr1⟩
    simp only [hloop] at hrun
    have hrec : ∀ s d2 o2 f, ∀ e ∈ (CopyTree env fuel s d2 o2 f).2.2,
        e.path = s ∨ pathUnder s e.path :=
      fun s d2 o2 f => treeEvents env fuel s d2 o2 f
    have hunder : ∀ e ∈ tr1, pathUnder src e.path := fun e he =>
      subsEvents (CopyTree env fuel) (copyFunctionOf env (some o)) (g src subs)
        (some o) src dst hrec subs fs0 e (by rw [hloop]; exact he)
    have htr : tr = Event.ignoreCall src subs :: tr1 := by
      cases r1 with
      | some e3 =>
        simp only [List.singleton_append, Prod.mk.injEq] at hrun
        exact hrun.2.2.symm
      | none =>
        simp only [CopyStat, List.singleton_append, Prod.mk.injEq] at hrun
        exact hrun.2.2.symm
    refine ⟨⟨tr1, htr, ?_⟩, ?_, hignEq, ?_, ?_⟩
    · intro subs2 hmem
      exact pathUnder_ne (hunder _ hmem) rfl
    · intro sub hsub hgn d
      have hfree := subs_ignored_path_free (CopyTree env fuel)
        (copyFunctionOf env (some o)) (g src subs) (some o) src dst sub.name hrec
        hgn (readDir_names hr sub hsub) subs fs0
      rw [htr]
      constructor
      · intro hmem
        rcases List.mem_cons.mp hmem with h1 | h2
        · simp at h1
        · exact hfree (Event.copyCall (filepathJoin src sub.name) d)
            (by rw [hloop]; exact h2) rfl
      · intro hmem
        rcases List.mem_cons.mp hmem with h1 | h2
        · simp at h1
        · exact hfree (Event.treeCall (filepathJoin src sub.name) d)
            (by rw [hloop]; exact h2) rfl
    · intro o2 h2
      simp [ignoredNamesOf, h2]
    · simp [ignoredNamesOf]

/-- Witness for C4: the concrete traversal of fsA's directory s with the
ignore-"a" callback: the callback fires once at "s" and once at "s/c"
(each with that directory's own listing), and the ignored entry a is
neither copied nor recursed into. -/
theorem copyTree_ignore_once_w :
    optIgnoreA.Ignore = some (fun _ _ => ["a"])
    ∧ fsA.stat "s" = .ok (0, Node.directory 493)
    ∧ fsA.readDir "s" = .ok subsS
    ∧ CopyTree env0 3 "s" "d" (some optIgnoreA) fsA = (("d", none), fsTreeCopied, trS)
    ∧ ((∃ tr1, trS = Event.ignoreCall "s" subsS :: tr1
         ∧ ∀ subs2, Event.ignoreCall "s" subs2 ∉ tr1)
       ∧ (∀ sub ∈ subsS, sub.name ∈ (fun (_ : Path) (_ : List FileInfo) => ["a"]) "s" subsS → ∀ d,
            Event.copyCall (filepathJoin "s" sub.name) d ∉ trS
            ∧ Event.treeCall (filepathJoin "s" sub.name) d ∉ trS)
       ∧ ignoredNamesOf (some optIgnoreA) "s" subsS
           = (fun (_ : Path) (_ : List FileInfo) => ["a"]) "s" subsS
       ∧ (∀ o2 : CopyTreeOptions, o2.Ignore = none →
            ignoredNamesOf (some o2) "s" subsS = [])
       ∧ ignoredNamesOf none "s" subsS = []) :=
  ⟨rfl, by decide, by decide, by decide,
    copyTree_ignore_once env0 2 "s" "d" optIgnoreA (fun _ _ => ["a"]) fsA 0
      (Node.directory 493) subsS ("d", none) fsTreeCopied trS rfl (by decide)
      (by decide) (by decide)⟩

end Shutil
